import Mathlib

/-!
Verification of the realtime chat message reconciler, room-name derivation and
team-roster construction of the task-nexus-pro repository.

The embedding follows the source:

* `src/src/components/realtime-chat.tsx` — the `RealtimeChat` component:
  the `allMessages` memo (de-duplication by id followed by a sort on creation
  time), the history fetch, the realtime INSERT handler and `sendMessage`
  (optimistic append, success replace, failure removal).
* `src/unnamed/part_009` (the `Chat` page) — `generateRoomName`.
* `src/src/pages/Team.tsx` — the roster-building loop of `fetchTeamMembers`.

Modelling conventions:

* `created_at` is stored in the row as an ISO timestamp string and is only
  ever consumed through `new Date(...).getTime()`; it is modelled directly as
  the epoch-milliseconds value (a `Nat`).
* JavaScript's `Array.prototype.sort` is required by the language standard to
  be a stable sort; it is modelled by the stable `List.insertionSort`.
* React state updates (`setRealtimeMessages`) are modelled as functions from
  the previous list to the next list, and a component run is a fold of such
  events over the initial empty list.
-/

/-- A chat row, as in the `ChatMessage` interface of `realtime-chat.tsx`.
`created_at` is the epoch-milliseconds value of the ISO timestamp. -/
structure ChatMessage where
  id : String
  content : String
  room : String
  created_at : Nat
  sender_id : String
  receiver_id : String
  sender_name : Option String
deriving DecidableEq, Repr

namespace Chat

/-- The reserved optimistic-placeholder marker test
`id.startsWith('optimistic-')`, embedded as a character-level prefix test
(JavaScript's `String.prototype.startsWith` compares the leading characters
against the argument). -/
def hasOptimisticMarker (s : String) : Bool :=
  List.isPrefixOf "optimistic-".data s.data

/-- JavaScript's `String.prototype.trim`, embedded at the character level:
drop whitespace from both ends. -/
def trimJS (s : String) : String :=
  String.mk
    (((s.data.dropWhile Char.isWhitespace).reverse.dropWhile
        Char.isWhitespace).reverse)

/-- Literal embedding of the de-duplication step of the `allMessages` memo:
`realtimeMessages.filter((message, index, self) => index === self.findIndex((m) => m.id === message.id))`,
which keeps the element at `index` exactly when it is the first element
carrying its id. -/
def uniqueByIdJS (self : List ChatMessage) : List ChatMessage :=
  (self.enum.filter
    (fun p => self.findIdx (fun m => m.id == p.2.id) == p.1)).map Prod.snd

/-- Recursive characterisation of `uniqueByIdJS`: keep the head, drop every
later element with the same id, recurse. Proved equal to `uniqueByIdJS` in
`uniqueByIdJS_eq_uniqueById` below. -/
def uniqueById : List ChatMessage → List ChatMessage
  | [] => []
  | m :: rest => m :: uniqueById (rest.filter (fun m2 => !(m2.id == m.id)))
termination_by l => l.length
decreasing_by
  simp only [List.length_cons]
  exact Nat.lt_succ_of_le (List.length_filter_le _ _)

/-- The comparison used by the `allMessages` sort:
`new Date(a.created_at).getTime() - new Date(b.created_at).getTime()`,
i.e. ascending creation time. -/
def createdLE (a b : ChatMessage) : Prop :=
  a.created_at ≤ b.created_at

instance : DecidableRel createdLE :=
  fun a b => inferInstanceAs (Decidable (a.created_at ≤ b.created_at))

instance : IsTotal ChatMessage createdLE :=
  ⟨fun a b => Nat.le_total a.created_at b.created_at⟩

instance : IsTrans ChatMessage createdLE :=
  ⟨fun _ _ _ => Nat.le_trans⟩

/-- The `allMessages` memo: de-duplicate by id (first occurrence wins), then
sort ascending by creation time with a stable sort, as
`Array.prototype.sort` is specified to be. -/
def allMessages (realtimeMessages : List ChatMessage) : List ChatMessage :=
  List.insertionSort createdLE (uniqueByIdJS realtimeMessages)

/-- The realtime INSERT handler of the `room:` channel subscription:
skip the payload if a message with the same id is already present, skip it if
it carries the optimistic marker, otherwise append it. -/
def pushInsert (prev : List ChatMessage) (newMsg : ChatMessage) : List ChatMessage :=
  if prev.any (fun msg => msg.id == newMsg.id) then prev
  else if hasOptimisticMarker newMsg.id then prev
  else prev ++ [newMsg]

/-- The temporary id of an optimistic placeholder:
`` `optimistic-${Date.now()}` `` where `now` is the `Date.now()` reading. -/
def tempIdOf (now : Nat) : String :=
  "optimistic-" ++ toString now

/-- The optimistic placeholder built at the start of `sendMessage`.
The `created_at` value `new Date().toISOString()` is modelled by the same
clock reading `now` that feeds the temporary id. -/
def optimisticMessage (content : String) (now : Nat)
    (senderId receiverId room senderName : String) : ChatMessage :=
  { id := tempIdOf now
    content := trimJS content
    sender_id := senderId
    receiver_id := receiverId
    room := room
    created_at := now
    sender_name := some senderName }

/-- The synchronous part of `sendMessage`: the guard
`if (!newMessage.trim() || !currentUserId) return;` followed by the optimistic
append `setRealtimeMessages(prev => [...prev, optimisticMessage])`.
An empty string models a falsy `currentUserId`. -/
def sendStartStep (content : String) (now : Nat)
    (senderId receiverId room senderName : String)
    (prev : List ChatMessage) : List ChatMessage :=
  if trimJS content = "" ∨ senderId = "" then prev
  else prev ++ [optimisticMessage content now senderId receiverId room senderName]

/-- The success continuation of `sendMessage` when the insert returned a row
`data0`: `prev.map(msg => msg.id === tempId ? data[0] : msg)`. -/
def sendSuccessStep (tempId : String) (data0 : ChatMessage)
    (prev : List ChatMessage) : List ChatMessage :=
  prev.map (fun msg => if msg.id == tempId then data0 else msg)

/-- The failure continuation of `sendMessage`:
`prev.filter(msg => msg.id !== tempId)`. -/
def sendFailureStep (tempId : String) (prev : List ChatMessage) : List ChatMessage :=
  prev.filter (fun msg => !(msg.id == tempId))

/-- The events that mutate the `realtimeMessages` state of the component. -/
inductive ChatEvent where
  | historyLoaded (data : List ChatMessage)
  | pushDelivery (payloadNew : ChatMessage)
  | sendStart (content : String) (now : Nat)
      (senderId receiverId room senderName : String)
  | sendSuccess (tempId : String) (data0 : ChatMessage)
  | sendFailure (tempId : String)

/-- One state transition of the component. `historyLoaded` is
`setRealtimeMessages(data)` in `fetchMessages`; the others are described at
their own definitions. -/
def step (prev : List ChatMessage) : ChatEvent → List ChatMessage
  | .historyLoaded data => data
  | .pushDelivery newMsg => pushInsert prev newMsg
  | .sendStart content now senderId receiverId room senderName =>
      sendStartStep content now senderId receiverId room senderName prev
  | .sendSuccess tempId data0 => sendSuccessStep tempId data0 prev
  | .sendFailure tempId => sendFailureStep tempId prev

/-- The `realtimeMessages` state reached from the initial `useState([])` by a
sequence of events. -/
def run (events : List ChatEvent) : List ChatMessage :=
  events.foldl step []

/-! ### The index-based de-duplication equals its recursive characterisation -/

theorem uniqueById_cons (m : ChatMessage) (rest : List ChatMessage) :
    uniqueById (m :: rest) = m :: uniqueById (rest.filter (fun m2 => !(m2.id == m.id))) := by
  rw [uniqueById]

theorem nat_succ_beq (m n : Nat) : (m + 1 == n + 1) = (m == n) := by
  cases h : (m == n) <;> simp_all [beq_iff_eq]

theorem snd_comp_shift :
    (Prod.snd ∘ Prod.map (· + 1) (id : ChatMessage → ChatMessage)) = Prod.snd := by
  funext p; cases p; rfl

theorem uniqueByIdJS_aux :
    ∀ (t : List ChatMessage) (s : String → Bool),
      ((t.enum.filter (fun p =>
          (!(s p.2.id)) && (t.findIdx (fun m => m.id == p.2.id) == p.1))).map Prod.snd)
        = uniqueById (t.filter (fun x => !(s x.id))) := by
  intro t
  induction t with
  | nil => intro s; simp [uniqueById]
  | cons a t ih =>
    intro s
    rw [List.enum_cons', List.filter_cons]
    have htail :
        ((t.enum.map (Prod.map (· + 1) id)).filter (fun p =>
            (!(s p.2.id)) && ((a :: t).findIdx (fun m => m.id == p.2.id) == p.1))).map Prod.snd
          = (t.enum.filter (fun p =>
              (!(s p.2.id)) && (!(a.id == p.2.id)) &&
                (t.findIdx (fun m => m.id == p.2.id) == p.1))).map Prod.snd := by
      rw [List.filter_map, List.map_map, snd_comp_shift]
      congr 1
      apply List.filter_congr
      intro p _
      cases p with
      | mk i x =>
        simp only [Function.comp, Prod.map_apply, id_eq, List.findIdx_cons]
        cases hax : (a.id == x.id) with
        | true =>
          have hx : x.id = a.id := (eq_of_beq hax).symm
          simp [hx, hax]
        | false =>
          simp only [hax, cond_false, nat_succ_beq, Bool.not_false, Bool.true_and]
          cases s x.id <;> simp
    cases hsa : s a.id with
    | true =>
      rw [if_neg (by simp)]
      rw [htail]
      have hstep : (t.enum.filter (fun p =>
            (!(s p.2.id)) && (!(a.id == p.2.id)) &&
              (t.findIdx (fun m => m.id == p.2.id) == p.1)))
          = (t.enum.filter (fun p =>
              (!(s p.2.id)) && (t.findIdx (fun m => m.id == p.2.id) == p.1))) := by
        apply List.filter_congr
        intro p _
        cases hax : (a.id == p.2.id) with
        | true =>
          have hx : p.2.id = a.id := (eq_of_beq hax).symm
          simp [hx, hsa]
        | false => simp
      rw [hstep, ih s]
      have hfa : ((a :: t).filter (fun x => !(s x.id)))
          = t.filter (fun x => !(s x.id)) := by
        simp [List.filter_cons, hsa]
      rw [hfa]
    | false =>
      rw [if_pos (by simp [List.findIdx_cons])]
      rw [List.map_cons, htail]
      have hrhs : ((a :: t).filter (fun x => !(s x.id)))
          = a :: t.filter (fun x => !(s x.id)) := by
        simp [List.filter_cons, hsa]
      rw [hrhs, uniqueById_cons, List.filter_filter]
      have ih' := ih (fun idStr => s idStr || (a.id == idStr))
      have hleft : (t.enum.filter (fun p =>
            (!(s p.2.id)) && (!(a.id == p.2.id)) &&
              (t.findIdx (fun m => m.id == p.2.id) == p.1)))
          = (t.enum.filter (fun p =>
              (!(s p.2.id || (a.id == p.2.id))) &&
                (t.findIdx (fun m => m.id == p.2.id) == p.1))) := by
        apply List.filter_congr
        intro p _
        simp [Bool.and_assoc]
      have hright : (t.filter (fun m2 => !(m2.id == a.id) && !(s m2.id)))
          = (t.filter (fun x => !(s x.id || (a.id == x.id)))) := by
        apply List.filter_congr
        intro x _
        rw [@Bool.beq_comm String _ _ x.id a.id]
        cases s x.id <;> cases (a.id == x.id) <;> simp
      rw [hleft, hright, ih']

theorem uniqueByIdJS_eq_uniqueById (l : List ChatMessage) :
    uniqueByIdJS l = uniqueById l := by
  have h := uniqueByIdJS_aux l (fun _ => false)
  simpa [uniqueByIdJS] using h

/-! ### Properties of the de-duplication step -/

theorem mem_of_mem_uniqueById :
    ∀ (l : List ChatMessage) (x : ChatMessage), x ∈ uniqueById l → x ∈ l := by
  intro l
  induction l using uniqueById.induct with
  | case1 => intro x hx; simp [uniqueById] at hx
  | case2 m rest ih =>
    intro x hx
    rw [uniqueById_cons] at hx
    rcases List.mem_cons.mp hx with h | h
    · exact h ▸ List.mem_cons_self _ _
    · exact List.mem_cons_of_mem _ (List.mem_of_mem_filter (ih x h))

theorem ids_uniqueById_nodup (l : List ChatMessage) :
    ((uniqueById l).map (fun m => m.id)).Nodup := by
  induction l using uniqueById.induct with
  | case1 => simp [uniqueById]
  | case2 m rest ih =>
    rw [uniqueById_cons, List.map_cons]
    refine List.nodup_cons.mpr ⟨?_, ih⟩
    intro hmem
    rcases List.mem_map.mp hmem with ⟨x, hx, hid⟩
    have hx' := mem_of_mem_uniqueById _ _ hx
    have := List.of_mem_filter hx'
    simp [hid] at this

theorem mem_ids_uniqueById (l : List ChatMessage) (i : String) :
    i ∈ (uniqueById l).map (fun m => m.id) ↔ i ∈ l.map (fun m => m.id) := by
  induction l using uniqueById.induct with
  | case1 => simp [uniqueById]
  | case2 m rest ih =>
    rw [uniqueById_cons]
    simp only [List.map_cons, List.mem_cons, ih]
    constructor
    · rintro (h | h)
      · exact Or.inl h
      · rcases List.mem_map.mp h with ⟨x, hx, hid⟩
        exact Or.inr (List.mem_map.mpr ⟨x, List.mem_of_mem_filter hx, hid⟩)
    · rintro (h | h)
      · exact Or.inl h
      · rcases List.mem_map.mp h with ⟨x, hx, hid⟩
        by_cases hxm : x.id = m.id
        · exact Or.inl (hid ▸ hxm)
        · refine Or.inr (List.mem_map.mpr ⟨x, List.mem_filter.mpr ⟨hx, ?_⟩, hid⟩)
          simp [hxm]

theorem toFinset_ids_uniqueById (l : List ChatMessage) :
    ((uniqueById l).map (fun m => m.id)).toFinset
      = (l.map (fun m => m.id)).toFinset := by
  ext i
  simp only [List.mem_toFinset]
  exact mem_ids_uniqueById l i

/-! ### Counting displayed entries -/

theorem allMessages_perm_uniqueById (l : List ChatMessage) :
    (allMessages l).Perm (uniqueById l) := by
  rw [allMessages, uniqueByIdJS_eq_uniqueById]
  exact List.perm_insertionSort createdLE (uniqueById l)

/-- The displayed list has one entry per distinct id of the state. -/
theorem allMessages_length (l : List ChatMessage) :
    (allMessages l).length = ((l.map (fun m => m.id)).toFinset).card := by
  rw [(allMessages_perm_uniqueById l).length_eq]
  rw [← toFinset_ids_uniqueById, List.toFinset_card_of_nodup (ids_uniqueById_nodup l)]
  exact (List.length_map _ _).symm

/-- Displayed entries satisfying an id-predicate are counted by the distinct
ids of the state satisfying it. -/
theorem allMessages_countP (p : String → Bool) (l : List ChatMessage) :
    (allMessages l).countP (fun m => p m.id)
      = (((l.map (fun m => m.id)).toFinset).filter (fun i => p i)).card := by
  rw [(allMessages_perm_uniqueById l).countP_eq]
  have h1 : (uniqueById l).countP (fun m => p m.id)
      = ((uniqueById l).map (fun m => m.id)).countP p := by
    rw [List.countP_map]; rfl
  rw [h1, List.countP_eq_length_filter]
  rw [← List.toFinset_card_of_nodup ((ids_uniqueById_nodup l).filter p)]
  rw [List.toFinset_filter, toFinset_ids_uniqueById]

/-! ### Filtering by an id commutes with the reconciler -/

theorem uniqueById_filter_id (l : List ChatMessage) :
    ∀ (tid : String),
      uniqueById (l.filter (fun m => !(m.id == tid)))
        = (uniqueById l).filter (fun m => !(m.id == tid)) := by
  induction l using uniqueById.induct with
  | case1 => intro tid; simp [uniqueById]
  | case2 m rest ih =>
    intro tid
    cases hm : (m.id == tid) with
    | false =>
      have hfc : (m :: rest).filter (fun m2 => !(m2.id == tid))
          = m :: rest.filter (fun m2 => !(m2.id == tid)) := by
        simp [List.filter_cons, hm]
      rw [hfc, uniqueById_cons, uniqueById_cons]
      have hfc2 : (m :: uniqueById (rest.filter (fun m2 =>
            !(m2.id == m.id)))).filter (fun m2 => !(m2.id == tid))
          = m :: (uniqueById (rest.filter (fun m2 =>
              !(m2.id == m.id)))).filter (fun m2 => !(m2.id == tid)) := by
        simp [List.filter_cons, hm]
      rw [hfc2]
      congr 1
      have hswap : (rest.filter (fun m2 => !(m2.id == tid))).filter
            (fun m2 => !(m2.id == m.id))
          = (rest.filter (fun m2 => !(m2.id == m.id))).filter
              (fun m2 => !(m2.id == tid)) := by
        rw [List.filter_filter, List.filter_filter]
        apply List.filter_congr
        intro x _
        cases (x.id == tid) <;> cases (x.id == m.id) <;> simp
      rw [hswap, ih tid]
    | true =>
      have htid : m.id = tid := eq_of_beq hm
      subst htid
      have hfc : (m :: rest).filter (fun m2 => !(m2.id == m.id))
          = rest.filter (fun m2 => !(m2.id == m.id)) := by
        simp [List.filter_cons]
      rw [hfc, uniqueById_cons]
      have hfc2 : (m :: uniqueById (rest.filter (fun m2 =>
            !(m2.id == m.id)))).filter (fun m2 => !(m2.id == m.id))
          = (uniqueById (rest.filter (fun m2 =>
              !(m2.id == m.id)))).filter (fun m2 => !(m2.id == m.id)) := by
        simp [List.filter_cons]
      rw [hfc2]
      have hidem : ((rest.filter (fun m2 => !(m2.id == m.id))).filter
            (fun m2 => !(m2.id == m.id)))
          = rest.filter (fun m2 => !(m2.id == m.id)) := by
        rw [List.filter_filter]
        apply List.filter_congr
        intro x _
        cases (x.id == m.id) <;> simp
      have h := ih m.id
      rw [hidem] at h
      exact h

theorem orderedInsert_eq_cons_of_le (x : ChatMessage) :
    ∀ (L : List ChatMessage), (∀ y ∈ L, createdLE x y) →
      List.orderedInsert createdLE x L = x :: L := by
  intro L h
  cases L with
  | nil => rfl
  | cons b L' =>
    exact List.orderedInsert_of_le createdLE L' (h b (List.mem_cons_self _ _))

theorem filter_orderedInsert (p : ChatMessage → Bool) (x : ChatMessage) :
    ∀ (L : List ChatMessage), L.Sorted createdLE →
      (List.orderedInsert createdLE x L).filter p
        = if p x then List.orderedInsert createdLE x (L.filter p) else L.filter p := by
  intro L
  induction L with
  | nil =>
    intro _
    cases hpx : p x <;>
      simp [List.orderedInsert, List.filter_cons, hpx]
  | cons b L' ih =>
    intro hsort
    have hb : ∀ y ∈ L', createdLE b y := List.rel_of_sorted_cons hsort
    have hL' : L'.Sorted createdLE := hsort.of_cons
    by_cases hxb : createdLE x b
    · rw [List.orderedInsert_of_le createdLE L' hxb]
      cases hpx : p x with
      | false => simp [List.filter_cons, hpx]
      | true =>
        cases hpb : p b with
        | true =>
          have hins : List.orderedInsert createdLE x (b :: L'.filter p)
              = x :: b :: L'.filter p :=
            List.orderedInsert_of_le createdLE (L'.filter p) hxb
          simp [List.filter_cons, hpx, hpb, hins]
        | false =>
          have hall : ∀ y ∈ L'.filter p, createdLE x y := by
            intro y hy
            exact Trans.trans hxb (hb y (List.mem_of_mem_filter hy))
          have hins := orderedInsert_eq_cons_of_le x (L'.filter p) hall
          simp [List.filter_cons, hpx, hpb, hins]
    · have hins : List.orderedInsert createdLE x (b :: L')
          = b :: List.orderedInsert createdLE x L' := by
        simp only [List.orderedInsert, if_neg hxb]
      rw [hins]
      cases hpb : p b with
      | true =>
        cases hpx : p x with
        | true =>
          have hins2 : List.orderedInsert createdLE x (b :: L'.filter p)
              = b :: List.orderedInsert createdLE x (L'.filter p) := by
            simp only [List.orderedInsert, if_neg hxb]
          simp [List.filter_cons, hpx, hpb, ih hL', hins2]
        | false => simp [List.filter_cons, hpx, hpb, ih hL']
      | false =>
        cases hpx : p x with
        | true => simp [List.filter_cons, hpx, hpb, ih hL']
        | false => simp [List.filter_cons, hpx, hpb, ih hL']

theorem filter_insertionSort (p : ChatMessage → Bool) :
    ∀ (l : List ChatMessage),
      (List.insertionSort createdLE l).filter p
        = List.insertionSort createdLE (l.filter p) := by
  intro l
  induction l with
  | nil => rfl
  | cons x l' ih =>
    have hsort := List.sorted_insertionSort createdLE l'
    have h1 : List.insertionSort createdLE (x :: l')
        = List.orderedInsert createdLE x (List.insertionSort createdLE l') := rfl
    rw [h1, filter_orderedInsert p x _ hsort, List.filter_cons]
    cases hpx : p x with
    | true =>
      have h2 : List.insertionSort createdLE (x :: l'.filter p)
          = List.orderedInsert createdLE x (List.insertionSort createdLE (l'.filter p)) := rfl
      simp [hpx, ih, h2]
    | false => simp [hpx, ih]

/-- Removing one id from the state removes exactly the entries with that id
from the displayed list, leaving the rest untouched and in order. -/
theorem allMessages_filter_id (l : List ChatMessage) (tid : String) :
    allMessages (l.filter (fun m => !(m.id == tid)))
      = (allMessages l).filter (fun m => !(m.id == tid)) := by
  rw [allMessages, allMessages, uniqueByIdJS_eq_uniqueById, uniqueByIdJS_eq_uniqueById]
  rw [uniqueById_filter_id l tid, filter_insertionSort]

theorem allMessages_sorted (l : List ChatMessage) :
    (allMessages l).Sorted createdLE :=
  List.sorted_insertionSort createdLE (uniqueByIdJS l)

theorem allMessages_ids_nodup (l : List ChatMessage) :
    ((allMessages l).map (fun m => m.id)).Nodup :=
  (((allMessages_perm_uniqueById l).map (fun m => m.id)).nodup_iff).mpr
    (ids_uniqueById_nodup l)

theorem mem_ids_allMessages (l : List ChatMessage) (i : String) :
    i ∈ (allMessages l).map (fun m => m.id) ↔ i ∈ l.map (fun m => m.id) := by
  rw [((allMessages_perm_uniqueById l).map (fun m => m.id)).mem_iff]
  exact mem_ids_uniqueById l i

theorem run_append_one (events : List ChatEvent) (e : ChatEvent) :
    run (events ++ [e]) = step (run events) e := by
  rw [run, List.foldl_append]
  rfl

/-! ### Sample rows used in closed scenario statements -/

/-- Sample history row with id `"1"` created at time 10. -/
def row1 : ChatMessage :=
  { id := "1", content := "first", room := "chat_a_b", created_at := 10
    sender_id := "a", receiver_id := "b", sender_name := some "A" }

/-- Sample history row with id `"2"` created at time 20. -/
def row2 : ChatMessage :=
  { id := "2", content := "second", room := "chat_a_b", created_at := 20
    sender_id := "b", receiver_id := "a", sender_name := some "B" }

/-- Sample live-push row with id `"3"` created at time 15, between the two
history rows. -/
def row3 : ChatMessage :=
  { id := "3", content := "third", room := "chat_a_b", created_at := 15
    sender_id := "a", receiver_id := "b", sender_name := some "A" }

/-- A second copy of id `"2"`: the same persisted row redelivered by the live
push stream. -/
def row2Redelivered : ChatMessage :=
  { id := "2", content := "second", room := "chat_a_b", created_at := 20
    sender_id := "b", receiver_id := "a", sender_name := some "B" }

/-- An optimistic placeholder produced by a send at clock reading 99. -/
def rowOptimistic : ChatMessage :=
  optimisticMessage "hi" 99 "a" "b" "chat_a_b" "A"

/-- The server-persisted row for the send behind `rowOptimistic`: same
content, server-assigned id `"42"`. -/
def rowServer : ChatMessage :=
  { id := "42", content := "hi", room := "chat_a_b", created_at := 100
    sender_id := "a", receiver_id := "b", sender_name := some "A" }

/-! ### Claims -/

/-- C1: for every sequence of events (history load, live-push deliveries,
local sends with their completions), the displayed message list contains no
two entries with the same id; and a push delivery whose id equals that of an
entry already displayed leaves the displayed list unchanged (hence unchanged
in length and content). -/
theorem C1_no_duplicate_ids (events : List ChatEvent) :
    ((allMessages (run events)).map (fun m => m.id)).Nodup ∧
    ∀ m : ChatMessage, m.id ∈ (allMessages (run events)).map (fun m2 => m2.id) →
      allMessages (run (events ++ [ChatEvent.pushDelivery m]))
        = allMessages (run events) := by
  refine ⟨allMessages_ids_nodup _, ?_⟩
  intro m hm
  rw [run_append_one]
  have hm' : m.id ∈ (run events).map (fun m2 => m2.id) :=
    (mem_ids_allMessages _ _).mp hm
  rcases List.mem_map.mp hm' with ⟨x, hx, hid⟩
  have hany : (run events).any (fun msg => msg.id == m.id) = true :=
    List.any_eq_true.mpr ⟨x, hx, beq_iff_eq.mpr hid⟩
  show allMessages (pushInsert (run events) m) = _
  rw [pushInsert, if_pos hany]

/-- Witness for C1: history loads ids 1 and 2, then the push stream
redelivers id 2; the displayed ids are duplicate-free and the redelivery
changes nothing. -/
theorem C1_no_duplicate_ids_witness :
    ((allMessages (run [ChatEvent.historyLoaded [row1, row2]])).map
        (fun m => m.id)).Nodup ∧
    allMessages (run ([ChatEvent.historyLoaded [row1, row2]]
        ++ [ChatEvent.pushDelivery row2Redelivered]))
      = allMessages (run [ChatEvent.historyLoaded [row1, row2]]) :=
  ⟨(C1_no_duplicate_ids [ChatEvent.historyLoaded [row1, row2]]).1,
    (C1_no_duplicate_ids [ChatEvent.historyLoaded [row1, row2]]).2
      row2Redelivered (by decide)⟩

/-- C2: for every interleaving of the three input sources the displayed list
is sorted ascending by creation time; in the scenario where history yields
ids 1 (time 10) and 2 (time 20) and a live push delivers id 3 (time 15), the
displayed order is 1, 3, 2. -/
theorem C2_displayed_sorted_by_time :
    (∀ events : List ChatEvent, (allMessages (run events)).Sorted createdLE) ∧
    (allMessages (run [ChatEvent.historyLoaded [row1, row2],
        ChatEvent.pushDelivery row3])).map (fun m => m.id) = ["1", "3", "2"] := by
  refine ⟨fun events => allMessages_sorted _, ?_⟩
  decide

/-- C6: the realtime INSERT handler never appends a delivery whose id carries
the optimistic marker, whatever the current state. -/
theorem C6_push_never_appends_optimistic (prev : List ChatMessage)
    (m : ChatMessage) (h : hasOptimisticMarker m.id = true) :
    pushInsert prev m = prev := by
  rw [pushInsert]
  by_cases hany : prev.any (fun msg => msg.id == m.id) = true
  · rw [if_pos hany]
  · rw [if_neg hany, if_pos h]

/-- Witness for C6 at a concrete state and a concrete marked delivery. -/
theorem C6_push_never_appends_optimistic_witness :
    hasOptimisticMarker rowOptimistic.id = true ∧
    pushInsert [row1] rowOptimistic = [row1] :=
  ⟨by decide, C6_push_never_appends_optimistic [row1] rowOptimistic (by decide)⟩

theorem countP_beq_eq_one_of_nodup_mem (i : String) :
    ∀ (ids : List String), ids.Nodup → i ∈ ids →
      ids.countP (fun s => s == i) = 1 := by
  intro ids
  induction ids with
  | nil => intro _ h; cases h
  | cons a t ih =>
    intro hnd hmem
    rw [List.countP_cons]
    rcases List.mem_cons.mp hmem with rfl | hmem'
    · have hnotin : i ∉ t := (List.nodup_cons.mp hnd).1
      have hz : t.countP (fun s => s == i) = 0 := by
        rw [List.countP_eq_zero]
        intro x hx
        simp only [beq_iff_eq]
        intro heq
        exact hnotin (heq ▸ hx)
      simp [hz]
    · have ht := ih (List.nodup_cons.mp hnd).2 hmem'
      have ha : (a == i) = false := by
        have hne : a ≠ i := fun h => (List.nodup_cons.mp hnd).1 (h ▸ hmem')
        simp [hne]
      simp [ht, ha]

theorem length_filter_id_add_count (tempId : String) :
    ∀ (L : List ChatMessage),
      (L.filter (fun m => !(m.id == tempId))).length
        + L.countP (fun m => m.id == tempId) = L.length := by
  intro L
  induction L with
  | nil => rfl
  | cons a t ih =>
    rw [List.filter_cons, List.countP_cons, List.length_cons]
    cases h : (a.id == tempId) with
    | true => simp only [h, Bool.not_true]; simp; omega
    | false => simp only [h, Bool.not_false]; simp [← ih]; omega

/-- There is exactly one displayed entry carrying a given id that occurs in
the state. -/
theorem countP_allMessages_id (prev : List ChatMessage) (tempId : String)
    (h1 : tempId ∈ prev.map (fun m => m.id)) :
    (allMessages prev).countP (fun m => m.id == tempId) = 1 := by
  have hmap : ((allMessages prev).map (fun m => m.id)).countP (fun s => s == tempId)
      = (allMessages prev).countP (fun m => m.id == tempId) := by
    rw [List.countP_map]; rfl
  rw [← hmap]
  exact countP_beq_eq_one_of_nodup_mem tempId _ (allMessages_ids_nodup prev)
    ((mem_ids_allMessages prev tempId).mpr h1)

/-- C4: for every state containing an optimistic placeholder for an in-flight
send, the failure continuation removes exactly that placeholder: the
displayed count drops by exactly one and every other displayed entry is kept
unchanged and in order. -/
theorem C4_send_failure_removes_placeholder (prev : List ChatMessage)
    (tempId : String)
    (h1 : tempId ∈ prev.map (fun m => m.id))
    (h2 : hasOptimisticMarker tempId = true) :
    (allMessages (sendFailureStep tempId prev)).length + 1
        = (allMessages prev).length ∧
    allMessages (sendFailureStep tempId prev)
        = (allMessages prev).filter (fun m => !(m.id == tempId)) := by
  have heq : allMessages (sendFailureStep tempId prev)
      = (allMessages prev).filter (fun m => !(m.id == tempId)) :=
    allMessages_filter_id prev tempId
  refine ⟨?_, heq⟩
  rw [heq]
  have hlen := length_filter_id_add_count tempId (allMessages prev)
  rw [countP_allMessages_id prev tempId h1] at hlen
  exact hlen

/-- Witness for C4: a state holding the placeholder of a send at clock
reading 99 plus one history row; the failed send removes exactly the
placeholder. -/
theorem C4_send_failure_removes_placeholder_witness :
    (tempIdOf 99 ∈ ([rowOptimistic, row1].map (fun m => m.id))
      ∧ hasOptimisticMarker (tempIdOf 99) = true) ∧
    (allMessages (sendFailureStep (tempIdOf 99) [rowOptimistic, row1])).length + 1
        = (allMessages [rowOptimistic, row1]).length ∧
    allMessages (sendFailureStep (tempIdOf 99) [rowOptimistic, row1])
        = (allMessages [rowOptimistic, row1]).filter
            (fun m => !(m.id == tempIdOf 99)) :=
  ⟨⟨by decide, by decide⟩,
    C4_send_failure_removes_placeholder [rowOptimistic, row1] (tempIdOf 99)
      (by decide) (by decide)⟩

/-! ### Success replacement (C3) -/

theorem toFinset_map_replace (L : List String) (a b : String) (ha : a ∈ L) :
    (L.map (fun s => if s == a then b else s)).toFinset
      = insert b (L.toFinset.erase a) := by
  ext x
  simp only [List.mem_toFinset, List.mem_map, Finset.mem_insert, Finset.mem_erase,
    List.mem_toFinset]
  constructor
  · rintro ⟨y, hy, hxy⟩
    by_cases hya : y = a
    · subst hya
      simp only [beq_self_eq_true, ite_true] at hxy
      exact Or.inl hxy.symm
    · have hf : (y == a) = false := by simp [hya]
      rw [hf] at hxy
      simp only [Bool.false_eq_true, ite_false] at hxy
      subst hxy
      exact Or.inr ⟨hya, hy⟩
  · rintro (rfl | ⟨hxa, hxL⟩)
    · exact ⟨a, ha, by simp⟩
    · refine ⟨x, hxL, ?_⟩
      have hf : (x == a) = false := by simp [hxa]
      rw [hf]
      simp

/-- The ids of the state after the optimistic→confirmed replacement. -/
theorem ids_sendSuccessStep (tempId : String) (data0 : ChatMessage)
    (prev : List ChatMessage) :
    (sendSuccessStep tempId data0 prev).map (fun m => m.id)
      = (prev.map (fun m => m.id)).map
          (fun s => if s == tempId then data0.id else s) := by
  rw [sendSuccessStep, List.map_map, List.map_map]
  apply List.map_congr_left
  intro x _
  cases h : (x.id == tempId) with
  | true => simp [Function.comp, h]
  | false => simp [Function.comp, h]

/-- C3 counterexample: the claim "the total displayed entry count is
unchanged" fails when the live push has already delivered the persisted row
before the send's success continuation runs. State: the placeholder of a
send at clock 99 plus the persisted row id "42" (delivered by push); the
success continuation swaps the placeholder for the persisted row and the
displayed count drops from 2 to 1. -/
theorem C3_counterexample_push_race :
    (allMessages [rowOptimistic, rowServer]).length = 2 ∧
    hasOptimisticMarker (tempIdOf 99) = true ∧
    (allMessages
        (sendSuccessStep (tempIdOf 99) rowServer [rowOptimistic, rowServer])).length
      = 1 := by
  refine ⟨by decide, by decide, by decide⟩

/-- C3 amended: when a send's insert succeeds and the persisted record is
swapped in for the placeholder, then — provided the persisted id is not
already present in the state and does not itself carry the optimistic
marker — the number of displayed entries carrying the optimistic marker
decreases by exactly one and the total displayed count is unchanged. -/
theorem C3_send_success_replaces (prev : List ChatMessage) (tempId : String)
    (data0 : ChatMessage)
    (h1 : tempId ∈ prev.map (fun m => m.id))
    (h2 : hasOptimisticMarker tempId = true)
    (h3 : data0.id ∉ prev.map (fun m => m.id))
    (h4 : hasOptimisticMarker data0.id = false) :
    (allMessages (sendSuccessStep tempId data0 prev)).length
        = (allMessages prev).length ∧
    (allMessages (sendSuccessStep tempId data0 prev)).countP
          (fun m => hasOptimisticMarker m.id) + 1
        = (allMessages prev).countP (fun m => hasOptimisticMarker m.id) := by
  have hbne : data0.id ≠ tempId := by
    intro h
    exact h3 (h ▸ h1)
  have hS : ((sendSuccessStep tempId data0 prev).map (fun m => m.id)).toFinset
      = insert data0.id ((prev.map (fun m => m.id)).toFinset.erase tempId) := by
    rw [ids_sendSuccessStep, toFinset_map_replace _ _ _ h1]
  have hmemS : tempId ∈ (prev.map (fun m => m.id)).toFinset :=
    List.mem_toFinset.mpr h1
  have hbnotin : data0.id ∉ (prev.map (fun m => m.id)).toFinset.erase tempId := by
    intro h
    exact h3 (List.mem_toFinset.mp (Finset.mem_of_mem_erase h))
  constructor
  · rw [allMessages_length, allMessages_length, hS,
      Finset.card_insert_of_not_mem hbnotin, Finset.card_erase_of_mem hmemS]
    have hpos : 1 ≤ (prev.map (fun m => m.id)).toFinset.card :=
      Finset.card_pos.mpr ⟨tempId, hmemS⟩
    omega
  · rw [allMessages_countP, allMessages_countP, hS, Finset.filter_insert]
    rw [if_neg (by simp [h4]), Finset.filter_erase]
    have hmemF : tempId ∈ Finset.filter (fun i => hasOptimisticMarker i = true)
        (prev.map (fun m => m.id)).toFinset :=
      Finset.mem_filter.mpr ⟨hmemS, h2⟩
    rw [Finset.card_erase_of_mem hmemF]
    have hpos : 1 ≤ (Finset.filter (fun i => hasOptimisticMarker i = true)
        (prev.map (fun m => m.id)).toFinset).card :=
      Finset.card_pos.mpr ⟨tempId, hmemF⟩
    omega

/-- Witness for the amended C3: state holds the placeholder of a send at
clock 99 and one history row; the success continuation swaps in the fresh
persisted row id "42". -/
theorem C3_send_success_replaces_witness :
    (tempIdOf 99 ∈ ([rowOptimistic, row1].map (fun m => m.id))
      ∧ hasOptimisticMarker (tempIdOf 99) = true
      ∧ rowServer.id ∉ ([rowOptimistic, row1].map (fun m => m.id))
      ∧ hasOptimisticMarker rowServer.id = false) ∧
    (allMessages (sendSuccessStep (tempIdOf 99) rowServer [rowOptimistic, row1])).length
        = (allMessages [rowOptimistic, row1]).length ∧
    (allMessages (sendSuccessStep (tempIdOf 99) rowServer
          [rowOptimistic, row1])).countP (fun m => hasOptimisticMarker m.id) + 1
        = (allMessages [rowOptimistic, row1]).countP
            (fun m => hasOptimisticMarker m.id) :=
  ⟨⟨by decide, by decide, by decide, by decide⟩,
    C3_send_success_replaces [rowOptimistic, row1] (tempIdOf 99) rowServer
      (by decide) (by decide) (by decide) (by decide)⟩

/-! ### Optimistic append (C5) -/

/-- C5 counterexample: a second send whose `Date.now()` reading equals that
of a still-pending earlier send reuses the same placeholder id, so the
de-duplicated displayed list does not grow: after one send at clock 5 the
displayed list has one entry, and a further send with non-empty content and
an authenticated sender at the same clock reading leaves it at one entry
instead of two. -/
theorem C5_counterexample_same_clock :
    (allMessages (run [ChatEvent.sendStart "hi" 5 "a" "b" "chat_a_b" "A"])).length
        = 1 ∧
    (allMessages (run [ChatEvent.sendStart "hi" 5 "a" "b" "chat_a_b" "A",
        ChatEvent.sendStart "there" 5 "a" "b" "chat_a_b" "A"])).length = 1 := by
  refine ⟨by decide, by decide⟩

/-- C5 amended: for every non-empty (after trimming) content and
authenticated sender, the synchronous part of send adds exactly one entry to
the displayed list, provided the generated placeholder id is not already
present in the state (i.e. no still-pending send shares the clock
reading). -/
theorem C5_send_appends_one_displayed_entry (content : String) (now : Nat)
    (senderId receiverId room senderName : String) (prev : List ChatMessage)
    (hc : trimJS content ≠ "")
    (hs : senderId ≠ "")
    (hfresh : tempIdOf now ∉ prev.map (fun m => m.id)) :
    (allMessages (sendStartStep content now senderId receiverId room senderName prev)).length
      = (allMessages prev).length + 1 := by
  rw [sendStartStep, if_neg (by
    intro h
    rcases h with h | h
    · exact hc h
    · exact hs h)]
  rw [allMessages_length, allMessages_length]
  have hids : (prev ++ [optimisticMessage content now senderId receiverId room
        senderName]).map (fun m => m.id)
      = prev.map (fun m => m.id) ++ [tempIdOf now] := by
    rw [List.map_append]
    rfl
  rw [hids, List.toFinset_append, List.toFinset_cons, List.toFinset_nil]
  have hins : (prev.map (fun m => m.id)).toFinset ∪ insert (tempIdOf now) ∅
      = insert (tempIdOf now) ((prev.map (fun m => m.id)).toFinset) := by
    rw [Finset.union_comm, Finset.insert_eq, Finset.insert_eq,
      Finset.union_assoc, Finset.empty_union]
  rw [hins, Finset.card_insert_of_not_mem (by simpa using hfresh)]

/-- Witness for the amended C5: one history row in the state, a send with
content `" hi "` (non-empty after trimming) at fresh clock reading 7. -/
theorem C5_send_appends_one_displayed_entry_witness :
    (trimJS " hi " ≠ "" ∧ ("a" : String) ≠ ""
      ∧ tempIdOf 7 ∉ ([row1].map (fun m => m.id))) ∧
    (allMessages (sendStartStep " hi " 7 "a" "b" "chat_a_b" "A" [row1])).length
      = (allMessages [row1]).length + 1 :=
  ⟨⟨by decide, by decide, by decide⟩,
    C5_send_appends_one_displayed_entry " hi " 7 "a" "b" "chat_a_b" "A" [row1]
      (by decide) (by decide) (by decide)⟩

/-! ### Uniqueness of placeholder ids (C7)

The placeholder id is `` `optimistic-${Date.now()}` ``: it is a pure function
of the millisecond clock reading. Distinct readings give distinct ids
(decimal printing of `Nat` is injective, proved below), but two sends within
the same millisecond share one reading and hence one id. -/

/-- Decimal digit list of a natural number, most significant first; the
specification of `Nat.toDigitsCore` at base 10. -/
def decimalDigits (n : Nat) : List Char :=
  if n < 10 then [Nat.digitChar n]
  else decimalDigits (n / 10) ++ [Nat.digitChar (n % 10)]
termination_by n
decreasing_by
  rename_i h
  exact Nat.div_lt_self (by omega) (by omega)

theorem toDigitsCore_eq_decimalDigits :
    ∀ (fuel n : Nat) (ds : List Char), n < fuel →
      Nat.toDigitsCore 10 fuel n ds = decimalDigits n ++ ds := by
  intro fuel
  induction fuel with
  | zero => intro n ds h; omega
  | succ fuel ih =>
    intro n ds h
    rw [Nat.toDigitsCore]
    by_cases hdiv : n / 10 = 0
    · have hn : n < 10 := by
        have hm := Nat.div_add_mod n 10
        have hm2 : n % 10 < 10 := Nat.mod_lt _ (by omega)
        omega
      rw [if_pos hdiv, decimalDigits, if_pos hn, Nat.mod_eq_of_lt hn]
      rfl
    · have hn : ¬ n < 10 := by
        intro hlt
        exact hdiv (Nat.div_eq_of_lt hlt)
      rw [if_neg hdiv]
      have hfuel : n / 10 < fuel := by
        have h1 : n / 10 < n := Nat.div_lt_self (by omega) (by omega)
        omega
      rw [ih (n / 10) (Nat.digitChar (n % 10) :: ds) hfuel]
      have hd : decimalDigits n
          = decimalDigits (n / 10) ++ [Nat.digitChar (n % 10)] := by
        rw [decimalDigits, if_neg hn]
      rw [hd, List.append_assoc]
      rfl

theorem repr_eq_decimalDigits (n : Nat) :
    Nat.repr n = (decimalDigits n).asString := by
  rw [Nat.repr, Nat.toDigits,
    toDigitsCore_eq_decimalDigits (n + 1) n [] (Nat.lt_succ_self n),
    List.append_nil]

/-- Decode a decimal digit character. -/
def digitVal (c : Char) : Nat :=
  c.toNat - 48

/-- Value of a most-significant-first decimal digit list. -/
def valueOfDigits (ds : List Char) : Nat :=
  ds.foldl (fun acc c => 10 * acc + digitVal c) 0

theorem digitVal_digitChar (d : Nat) (h : d < 10) :
    digitVal (Nat.digitChar d) = d := by
  interval_cases d <;> decide

theorem valueOfDigits_append_one (a : List Char) (c : Char) :
    valueOfDigits (a ++ [c]) = 10 * valueOfDigits a + digitVal c := by
  rw [valueOfDigits, List.foldl_append]
  rfl

theorem valueOfDigits_decimalDigits (n : Nat) :
    valueOfDigits (decimalDigits n) = n := by
  induction n using decimalDigits.induct with
  | case1 n h =>
    rw [decimalDigits, if_pos h, valueOfDigits]
    simp [List.foldl, digitVal_digitChar n h]
  | case2 n h ih =>
    rw [decimalDigits, if_neg h, valueOfDigits_append_one, ih,
      digitVal_digitChar (n % 10) (Nat.mod_lt n (by omega))]
    omega

theorem decimalDigits_injective (n1 n2 : Nat)
    (h : decimalDigits n1 = decimalDigits n2) : n1 = n2 := by
  rw [← valueOfDigits_decimalDigits n1, ← valueOfDigits_decimalDigits n2, h]

/-- C7 counterexample: two distinct send invocations (the first and the
second event) whose `Date.now()` readings coincide produce the same
placeholder id, so the locally generated ids are not unique per call. -/
theorem C7_counterexample_same_millisecond :
    (run [ChatEvent.sendStart "hi" 5 "a" "b" "chat_a_b" "A",
          ChatEvent.sendStart "there" 5 "a" "b" "chat_a_b" "A"]).map
        (fun m => m.id)
      = [tempIdOf 5, tempIdOf 5] := by
  decide

/-- C7 amended: placeholder ids of two send invocations are distinct
whenever their `Date.now()` readings are distinct (two sends in the same
millisecond share one id). -/
theorem C7_temp_ids_distinct_for_distinct_clocks (n1 n2 : Nat)
    (h : n1 ≠ n2) : tempIdOf n1 ≠ tempIdOf n2 := by
  intro heq
  apply h
  have hdata : ("optimistic-" ++ toString n1).data
      = ("optimistic-" ++ toString n2).data := by
    rw [show tempIdOf n1 = "optimistic-" ++ toString n1 from rfl] at heq
    rw [show tempIdOf n2 = "optimistic-" ++ toString n2 from rfl] at heq
    rw [heq]
  rw [String.data_append, String.data_append] at hdata
  have hrepr : (toString n1 : String).data = (toString n2 : String).data :=
    List.append_cancel_left hdata
  have h1 : (toString n1 : String) = Nat.repr n1 := rfl
  have h2 : (toString n2 : String) = Nat.repr n2 := rfl
  rw [h1, h2, repr_eq_decimalDigits, repr_eq_decimalDigits] at hrepr
  exact decimalDigits_injective n1 n2 hrepr

/-- Witness for the amended C7 at clock readings 3 and 5. -/
theorem C7_temp_ids_distinct_witness :
    (3 : Nat) ≠ 5 ∧ tempIdOf 3 ≠ tempIdOf 5 :=
  ⟨by decide, C7_temp_ids_distinct_for_distinct_clocks 3 5 (by decide)⟩

/-! ### Room name derivation (C8)

The `Chat` page derives the channel name with
`const generateRoomName = (id1, id2) => [id1, id2].sort().join('_')` and
prefixes it with `chat_`. `Array.prototype.sort` without a comparator sorts
strings lexically; on a two-element array any lexical sort yields the pair
in non-decreasing order. -/

/-- The room-name derivation of the `Chat` page:
`[id1, id2].sort().join('_')`. -/
def generateRoomName (id1 id2 : String) : String :=
  String.intercalate "_" (List.insertionSort (fun a b => a ≤ b) [id1, id2])

/-- The full channel name `` `chat_${generateRoomName(user.id, receiverId)}` ``. -/
def roomNameFor (userId receiverId : String) : String :=
  "chat_" ++ generateRoomName userId receiverId

theorem insertionSort_pair (x y : String) :
    List.insertionSort (fun a b => a ≤ b) [x, y]
      = if x ≤ y then [x, y] else [y, x] := by
  show List.orderedInsert _ x (List.orderedInsert _ y []) = _
  rw [List.orderedInsert_nil]
  by_cases h : x ≤ y
  · rw [List.orderedInsert_of_le _ _ h, if_pos h]
  · have : List.orderedInsert (fun a b => a ≤ b) x [y]
        = y :: List.orderedInsert (fun a b => a ≤ b) x [] := by
      simp only [List.orderedInsert, if_neg h]
    rw [this, List.orderedInsert_nil, if_neg h]

/-- C8: the derived room name is deterministic and symmetric in the two
participant identifiers. -/
theorem C8_room_name_symmetric (a b : String) :
    generateRoomName a b = generateRoomName b a := by
  rw [generateRoomName, generateRoomName, insertionSort_pair, insertionSort_pair]
  by_cases hab : a ≤ b
  · by_cases hba : b ≤ a
    · have : a = b := le_antisymm hab hba
      subst this
      rfl
    · rw [if_pos hab, if_neg hba]
  · have hba : b ≤ a := le_of_not_le hab
    rw [if_neg hab, if_pos hba]

/-! ### History fetch failure (C9) -/

/-- The outcome of the one-shot `fetchMessages` of the history `useEffect`,
as a function of the query result: on success the rows replace the state and
nothing is logged; on error (`catch`) the state is left unchanged and the
error is logged with `console.error('Error fetching messages:', error)`; the
`finally` block clears `isLoading` either way. The function performs a
single attempt — no retry. The triple is
(next `realtimeMessages` state, console error log, final `isLoading`). -/
def fetchMessagesOutcome (result : Except String (List ChatMessage))
    (prev : List ChatMessage) : List ChatMessage × List String × Bool :=
  match result with
  | .ok data => (data, [], false)
  | .error e => (prev, ["Error fetching messages: " ++ e], false)

/-- C9: when the history fetch fails, the message collection stays in its
initial empty state (so the displayed feed is empty), the failure is
surfaced on the error log, and loading terminates; the outcome is that of
the single attempt. -/
theorem C9_fetch_failure_leaves_feed_empty (e : String) :
    fetchMessagesOutcome (Except.error e) []
        = ([], ["Error fetching messages: " ++ e], false) ∧
    allMessages (fetchMessagesOutcome (Except.error e) []).1 = [] :=
  ⟨rfl, rfl⟩

end Chat

/-! ### Team roster construction (C10)

Embedding of the roster-building loop at the end of `fetchTeamMembers` in
`src/src/pages/Team.tsx`: it walks the collected member strings (a mix of
user ids and emails), skips the current authenticated user, derives a
display name and email for each remaining member, and pushes a
`TeamMember` record whose `id` is the member string itself. -/

/-- The `TeamMember` records pushed onto `teamMembersList`. -/
structure TeamMember where
  id : String
  email : String
  name : String
  role : String
  projects : List String
  isOwner : Bool

namespace Team

/-- JavaScript `part.charAt(0).toUpperCase() + part.slice(1)` (on the empty
string both pieces are empty). -/
def capitalizeJS (s : String) : String :=
  match s.data with
  | [] => ""
  | c :: cs => String.mk (Char.toUpper c :: cs)

/-- The display name derived from the part of an email before the `@`:
split on the first of `.`, `_`, `-` that occurs, capitalize every part and
join with spaces; with no separator, capitalize the whole. -/
def displayNameFromEmailName (emailName : String) : String :=
  if emailName.contains '.' then
    String.intercalate " " ((emailName.splitOn ".").map capitalizeJS)
  else if emailName.contains '_' then
    String.intercalate " " ((emailName.splitOn "_").map capitalizeJS)
  else if emailName.contains '-' then
    String.intercalate " " ((emailName.splitOn "-").map capitalizeJS)
  else capitalizeJS emailName

/-- One iteration of the roster loop. `none` models `continue` (the member
is the current user); otherwise the pushed record. `userLookup` is the
`userLookup` map (name, email); `ownerInfo` is the `ownerInfo` map with
`false` for absent keys (JS truthiness of `undefined`); `memberProjects`
already carries the `|| []` default. -/
def processMember (userId userEmail : String)
    (userLookup : String → Option (String × String))
    (ownerInfo : String → Bool)
    (memberProjects : String → List String)
    (member : String) : Option TeamMember :=
  if member = userId ∨ member = userEmail then none
  else
    let isEmail := member.contains '@'
    let info := userLookup member
    let displayName :=
      match info with
      | some nameEmail => nameEmail.1
      | none =>
        if isEmail then
          displayNameFromEmailName ((member.splitOn "@").headD "")
        else if ownerInfo member then "Unknown Project Owner"
        else "Unknown Team Member"
    let email :=
      match info with
      | some nameEmail => nameEmail.2
      | none =>
        if isEmail then member
        else "user-" ++ (member.take 8) ++ "@example.com"
    some { id := member
           email := email
           name := displayName
           role := if ownerInfo member then "Project Owner" else "Team Member"
           projects := memberProjects member
           isOwner := ownerInfo member }

/-- The roster produced by the loop over `allMembers`. -/
def teamMembersList (members : List String) (userId userEmail : String)
    (userLookup : String → Option (String × String))
    (ownerInfo : String → Bool)
    (memberProjects : String → List String) : List TeamMember :=
  members.filterMap (processMember userId userEmail userLookup ownerInfo memberProjects)

/-- C10: the roster never contains an entry for the current user — no
produced record's id equals the current user's id or email. -/
theorem C10_roster_excludes_current_user (members : List String)
    (userId userEmail : String)
    (userLookup : String → Option (String × String))
    (ownerInfo : String → Bool)
    (memberProjects : String → List String) :
    (teamMembersList members userId userEmail userLookup ownerInfo
        memberProjects).filter
      (fun tm => tm.id == userId || tm.id == userEmail) = [] := by
  rw [List.filter_eq_nil_iff]
  intro tm htm
  rcases List.mem_filterMap.mp htm with ⟨member, _, hproc⟩
  rw [processMember] at hproc
  by_cases hguard : member = userId ∨ member = userEmail
  · rw [if_pos hguard] at hproc
    cases hproc
  · rw [if_neg hguard] at hproc
    have hid : tm.id = member := by
      cases hproc
      rfl
    push_neg at hguard
    simp [hid, hguard.1, hguard.2]

end Team
